import Mathlib

/-!
Verification development for `rcpsp_pack.py`: a linear-descent makespan
search driver over a CP feasibility oracle, plus the batch CSV executor.

The embedding models wall-clock time as exact rationals (Python floats are
approximations of these), the underlying CP engine (`mdl.solve` inside
`solve_rcpsp_with_makespan_bound`) as a pure function from (makespan bound,
TimeLimit) to a decision and a wall-clock cost, and the driver loop
`solve_rcpsp_linear_search` as structural recursion over the descending
candidate list `range(UPPER_BOUND, LOWER_BOUND - 1, -1)`.
-/

namespace RcpspPack

/-- Result of one underlying CP engine invocation (`mdl.solve`): the engine
either proves feasibility (a solution object with `is_solution()` true),
proves infeasibility, or hits its `TimeLimit` without a determination.
An exception inside the wrapper behaves, toward the driver, exactly like a
non-solution result and is subsumed by the non-`Feasible` cases. -/
inductive DecisionResult where
  | Feasible
  | Infeasible
  | TimedOut
deriving DecidableEq

/-- Abstraction of the underlying CP engine call: given the makespan bound
and the `TimeLimit` value actually passed, return the decision and the
wall-clock seconds the call took. The engine is deterministic (a pure
function), matching a fixed solver on a fixed instance file. -/
def Engine : Type := ℤ → ℚ → DecisionResult × ℚ

/-- Global per-instance budget: `TIME_PER_INSTANCE = 900` seconds. -/
def TIME_PER_INSTANCE : ℚ := 900

/-- Line 62 of the source: `time_to_use = max(1, time_remaining)`. -/
def time_to_use (time_remaining : ℚ) : ℚ := max 1 time_remaining

/-- Truth of `res is not None and res.is_solution()`: exactly on `Feasible`. -/
def isSolution : DecisionResult → Bool
  | .Feasible => true
  | .Infeasible => false
  | .TimedOut => false

/-- The wrapper `solve_rcpsp_with_makespan_bound(data_file, target_makespan,
time_remaining)`: builds the CP model (delegated to the engine abstraction),
floors the time limit at 1 second, runs the engine, and reports only a
boolean feasibility verdict together with the wall-clock cost of the call. -/
def solve_rcpsp_with_makespan_bound (eng : Engine) (target_makespan : ℤ)
    (time_remaining : ℚ) : Bool × ℚ :=
  let rc := eng target_makespan (time_to_use time_remaining)
  (isSolution rc.1, rc.2)

/-- One oracle call issued by the driver loop: the candidate makespan and the
remaining budget handed to `solve_rcpsp_with_makespan_bound`. Since the
engine is a pure function, the decision of the call is recoverable from
these two fields (see `callResult`). -/
structure CallRecord where
  makespan : ℤ
  remaining : ℚ
deriving DecidableEq

/-- The engine-level decision of a recorded oracle call. -/
def callResult (eng : Engine) (c : CallRecord) : DecisionResult :=
  (eng c.makespan (time_to_use c.remaining)).1

/-- The boolean verdict the driver saw for a recorded oracle call. -/
def callFeasible (eng : Engine) (c : CallRecord) : Bool :=
  (solve_rcpsp_with_makespan_bound eng c.makespan c.remaining).1

/-- Mutable state of the linear-search loop in `solve_rcpsp_linear_search`:
`optimal_makespan`, the elapsed wall-clock time, the `timeout_occurred`
flag, plus the trace of oracle calls issued so far (for specification
purposes; the source merely prints them). -/
structure LoopState where
  best : Option ℤ
  elapsed : ℚ
  timedOut : Bool
  calls : List CallRecord
deriving DecidableEq

/-- State at loop entry: no feasible value, no elapsed time, no timeout. -/
def initState : LoopState := ⟨none, 0, false, []⟩

/-- The iteration list `range(UPPER_BOUND, LOWER_BOUND - 1, -1)`: the
descending candidate list `[u, u-1, ..., l]`, empty when `u < l`. -/
def descRange (u l : ℤ) : List ℤ :=
  (List.range (u - l + 1).toNat).map (fun i : ℕ => u - (i : ℤ))

/-- The `for makespan in range(UPPER_BOUND, LOWER_BOUND - 1, -1)` loop of
`solve_rcpsp_linear_search` (lines 114-146): check the remaining budget,
issue the oracle call, account its cost, record the best feasible value and
continue on `Feasible`, break on anything else. The per-iteration overhead
outside the oracle call (prints, clock reads) is treated as zero, so the
elapsed clock is the accumulated cost of the oracle calls. -/
def searchLoop (eng : Engine) : List ℤ → LoopState → LoopState
  | [], st => st
  | m :: rest, st =>
    let time_remaining := TIME_PER_INSTANCE - st.elapsed
    if time_remaining ≤ 0 then
      { st with timedOut := true }
    else
      let fc := solve_rcpsp_with_makespan_bound eng m time_remaining
      let st' : LoopState :=
        { st with elapsed := st.elapsed + fc.2,
                  calls := st.calls ++ [⟨m, time_remaining⟩] }
      if fc.1 then
        searchLoop eng rest { st' with best := some m }
      else
        st'

/-- The loop state after the full search for the bound range `[L, U]`. -/
def runFin (eng : Engine) (L U : ℤ) : LoopState :=
  searchLoop eng (descRange U L) initState

/-- Bound extraction from the tokens of the instance file's first line
(lines 90-99): two trailing fields give `(LB, UB)`, exactly one trailing
field gives `(b, b)`, fewer give no bounds. -/
def readBounds (first_line : List ℤ) : Option (ℤ × ℤ) :=
  if first_line.length ≥ 4 then
    some (first_line.getD 2 0, first_line.getD 3 0)
  else if first_line.length = 3 then
    some (first_line.getD 2 0, first_line.getD 2 0)
  else
    none

/-- The tuple `(LOWER_BOUND, UPPER_BOUND, optimal_makespan, status, solve_time)`
returned by `solve_rcpsp_linear_search`. -/
structure SolveResult where
  lb : Option ℤ
  ub : Option ℤ
  makespan : Option ℤ
  status : String
  solve_time : ℚ
deriving DecidableEq

/-- The post-loop classification (lines 148-169): with a feasible value,
`feasible` when the solve time exceeded the budget or the timeout flag was
set, else `optimal` exactly when the value equals the lower bound; with no
feasible value, `infeasible`. -/
def classify (L U : ℤ) (fin : LoopState) : SolveResult :=
  let solve_time := fin.elapsed
  match fin.best with
  | some m =>
    if TIME_PER_INSTANCE < solve_time ∨ fin.timedOut = true then
      ⟨some L, some U, some m, "feasible", solve_time⟩
    else if m = L then
      ⟨some L, some U, some m, "optimal", solve_time⟩
    else
      ⟨some L, some U, some m, "feasible", solve_time⟩
  | none => ⟨some L, some U, none, "infeasible", solve_time⟩

/-- The driver `solve_rcpsp_linear_search(data_file)`: read the bounds from
the first line; with no bounds return `(None, None, None, "infeasible", t)`
immediately (the early return at line 100; its `solve_time` is the
negligible time to read one line, modelled as 0); otherwise run the
descending loop and classify. The redundant `LOWER_BOUND is None` check at
line 102 is unreachable once bounds were read and is elided. -/
def solve_rcpsp_linear_search (eng : Engine) (first_line : List ℤ) : SolveResult :=
  match readBounds first_line with
  | none => ⟨none, none, none, "infeasible", 0⟩
  | some (L, U) => classify L U (searchLoop eng (descRange U L) initState)

/-- One CSV row of the batch output (lines 229-236): file name, the five
result fields. Absent numbers render as `N/A` in the file; the row is
modelled pre-rendering, with `none` for `N/A` and the exact rational for
the two-decimal time. -/
structure BatchRow where
  file_name : String
  lb : Option ℤ
  ub : Option ℤ
  makespan : Option ℤ
  status : String
  solve_time : ℚ
deriving DecidableEq

/-- The row written on the success path of `main`'s per-instance `try`. -/
def rowOf (name : String) (r : SolveResult) : BatchRow :=
  ⟨name, r.lb, r.ub, r.makespan, r.status, r.solve_time⟩

/-- The row written by `main`'s per-instance `except` handler (line 249):
`[file_name, "N/A", "N/A", "N/A", "infeasible", "0.00"]`. -/
def errorRow (name : String) : BatchRow :=
  ⟨name, none, none, none, "infeasible", 0⟩

/-- One iteration of `main`'s batch loop (lines 215-250): run the instance's
search (which may raise, modelled by `Except`), and on any exception write
the error row instead of propagating. Exactly one row per instance either
way. -/
def processInstance (run : String → Except Unit SolveResult) (name : String) :
    BatchRow :=
  match run name with
  | .ok r => rowOf name r
  | .error _ => errorRow name

/-- The list of rows `main` writes for the given (already sorted) file
names: one per instance, in order, each flushed before the next instance
begins. -/
def mainRows (run : String → Except Unit SolveResult) (files : List String) :
    List BatchRow :=
  files.map (processInstance run)

/-- Engine that finds every candidate feasible, at 1 second per call. -/
def engAllFeas : Engine := fun _ _ => (.Feasible, 1)

/-- Engine that proves every candidate infeasible, at 1 second per call. -/
def engAllInf : Engine := fun _ _ => (.Infeasible, 1)

/-- Engine that times out on every call, consuming the whole 900 s budget. -/
def engTO : Engine := fun _ _ => (.TimedOut, 900)

/-- Default record used with `List.getD` in statements. -/
def noCall : CallRecord := ⟨0, 0⟩

/-- Default row used with `List.getD` in statements. -/
def noRow : BatchRow := ⟨"", none, none, none, "", 0⟩

/-- A per-instance runner in which every instance solves cleanly. -/
def runAllOk : String → Except Unit SolveResult :=
  fun _ => .ok (solve_rcpsp_linear_search engAllFeas [2, 2, 4, 6])

/-- The same runner with a parse failure injected on one instance. -/
def runOneBad : String → Except Unit SolveResult :=
  fun n => if n = "j30_2.data" then .error () else runAllOk n

/-- Unfolding the loop when the pre-call budget check fires: the timeout flag
is set and the loop stops, leaving every other component untouched. -/
theorem searchLoop_cons_timeout (eng : Engine) (m : ℤ) (rest : List ℤ)
    (st : LoopState) (hto : TIME_PER_INSTANCE - st.elapsed ≤ 0) :
    searchLoop eng (m :: rest) st = { st with timedOut := true } := by
  simp [searchLoop, hto]

/-- Unfolding the loop on a feasible oracle answer: the call is recorded, its
cost accounted, the best value updated, and the loop continues. -/
theorem searchLoop_cons_feasible (eng : Engine) (m : ℤ) (rest : List ℤ)
    (st : LoopState) (hto : ¬ TIME_PER_INSTANCE - st.elapsed ≤ 0)
    (hf : (solve_rcpsp_with_makespan_bound eng m (TIME_PER_INSTANCE - st.elapsed)).1 = true) :
    searchLoop eng (m :: rest) st =
      searchLoop eng rest
        { best := some m,
          elapsed := st.elapsed +
            (solve_rcpsp_with_makespan_bound eng m (TIME_PER_INSTANCE - st.elapsed)).2,
          timedOut := st.timedOut,
          calls := st.calls ++ [⟨m, TIME_PER_INSTANCE - st.elapsed⟩] } := by
  simp [searchLoop, hto, hf]

/-- Unfolding the loop on a non-feasible oracle answer: the call is recorded,
its cost accounted, and the loop breaks with everything else untouched. -/
theorem searchLoop_cons_break (eng : Engine) (m : ℤ) (rest : List ℤ)
    (st : LoopState) (hto : ¬ TIME_PER_INSTANCE - st.elapsed ≤ 0)
    (hf : (solve_rcpsp_with_makespan_bound eng m (TIME_PER_INSTANCE - st.elapsed)).1 = false) :
    searchLoop eng (m :: rest) st =
      { best := st.best,
        elapsed := st.elapsed +
          (solve_rcpsp_with_makespan_bound eng m (TIME_PER_INSTANCE - st.elapsed)).2,
        timedOut := st.timedOut,
        calls := st.calls ++ [⟨m, TIME_PER_INSTANCE - st.elapsed⟩] } := by
  simp [searchLoop, hto, hf]

/-- Structural invariant of the search loop: the calls issued extend the
trace in order, one per candidate from the front of the remaining list; each
was issued with strictly positive remaining budget; every call but the last
got a feasible answer (the loop continues only on `Feasible`); and if some
call got a non-feasible answer then the loop broke there, leaving the
timeout flag unchanged. -/
theorem searchLoop_spec (eng : Engine) (ms : List ℤ) : ∀ st : LoopState,
    ∃ tail : List CallRecord,
      (searchLoop eng ms st).calls = st.calls ++ tail ∧
      tail.length ≤ ms.length ∧
      (∀ j, j < tail.length → (tail.getD j noCall).makespan = ms.getD j 0) ∧
      (∀ j, j < tail.length → 0 < (tail.getD j noCall).remaining) ∧
      (∀ j, j + 1 < tail.length → callFeasible eng (tail.getD j noCall) = true) ∧
      ((∃ j, j < tail.length ∧ callFeasible eng (tail.getD j noCall) = false) →
        (searchLoop eng ms st).timedOut = st.timedOut) := by
  induction ms with
  | nil =>
    intro st
    refine ⟨[], by simp [searchLoop], by simp, by simp, by simp, by simp, ?_⟩
    rintro ⟨j, hj, -⟩
    exact absurd hj (by simp)
  | cons m rest ih =>
    intro st
    by_cases hto : TIME_PER_INSTANCE - st.elapsed ≤ 0
    · refine ⟨[], ?_, by simp, by simp, by simp, by simp, ?_⟩
      · rw [searchLoop_cons_timeout eng m rest st hto]; simp
      · rintro ⟨j, hj, -⟩
        exact absurd hj (by simp)
    · by_cases hf :
        (solve_rcpsp_with_makespan_bound eng m (TIME_PER_INSTANCE - st.elapsed)).1 = true
      · obtain ⟨tail, h1, h2, h3, h4, h5, h6⟩ :=
          ih { best := some m,
               elapsed := st.elapsed +
                 (solve_rcpsp_with_makespan_bound eng m (TIME_PER_INSTANCE - st.elapsed)).2,
               timedOut := st.timedOut,
               calls := st.calls ++ [⟨m, TIME_PER_INSTANCE - st.elapsed⟩] }
        rw [searchLoop_cons_feasible eng m rest st hto hf]
        refine ⟨⟨m, TIME_PER_INSTANCE - st.elapsed⟩ :: tail, ?_, ?_, ?_, ?_, ?_, ?_⟩
        · rw [h1]; simp
        · simpa using Nat.succ_le_succ h2
        · intro j hj
          cases j with
          | zero => simp
          | succ j =>
            simp only [List.getD_cons_succ]
            exact h3 j (by simpa using hj)
        · intro j hj
          cases j with
          | zero => simpa using lt_of_not_ge hto
          | succ j =>
            simp only [List.getD_cons_succ]
            exact h4 j (by simpa using hj)
        · intro j hj
          cases j with
          | zero =>
            simpa [callFeasible] using hf
          | succ j =>
            simp only [List.getD_cons_succ]
            exact h5 j (by simpa using hj)
        · rintro ⟨j, hj, hjf⟩
          cases j with
          | zero =>
            rw [List.getD_cons_zero] at hjf
            have : callFeasible eng ⟨m, TIME_PER_INSTANCE - st.elapsed⟩ = true := by
              simpa [callFeasible] using hf
            rw [this] at hjf
            exact absurd hjf (by simp)
          | succ j =>
            rw [List.getD_cons_succ] at hjf
            exact h6 ⟨j, by simpa using hj, hjf⟩
      · rw [searchLoop_cons_break eng m rest st hto (by simpa using hf)]
        refine ⟨[⟨m, TIME_PER_INSTANCE - st.elapsed⟩], by simp, by simp, ?_, ?_, ?_, ?_⟩
        · intro j hj
          simp only [List.length_singleton] at hj
          have hj0 : j = 0 := by omega
          subst hj0
          simp
        · intro j hj
          simp only [List.length_singleton] at hj
          have hj0 : j = 0 := by omega
          subst hj0
          simpa using lt_of_not_ge hto
        · intro j hj
          simp only [List.length_singleton] at hj
          omega
        · intro _
          rfl

/-- The i-th candidate of the descending range is `u - i`. -/
theorem descRange_getD (u l : ℤ) (i : ℕ) (hi : i < (descRange u l).length) :
    (descRange u l).getD i 0 = u - i := by
  unfold descRange at hi ⊢
  simp only [List.length_map] at hi
  rw [List.getD_eq_getElem _ _ (by simpa using hi), List.getElem_map, List.getElem_range]

/-- A degenerate range tests the single candidate `v`. -/
theorem descRange_self (v : ℤ) : descRange v v = [v] := by
  unfold descRange
  rw [sub_self]
  norm_num [List.range_succ]

/-- The driver sees a feasible verdict exactly when the engine decision of
the recorded call was `Feasible`. -/
theorem callFeasible_eq (eng : Engine) (c : CallRecord) :
    callFeasible eng c = isSolution (callResult eng c) := rfl

/-- C1: for every instance with a valid bound range and every oracle, the
driver's oracle calls carry candidate makespans starting at `upper` and
strictly decreasing by 1 (the i-th call tests `upper - i`), and after a call
whose engine-level decision is `Infeasible` no further oracle call is issued
in the same search: that call is the last one of the trace, so in particular
no call with a smaller bound is ever issued. -/
theorem claim1_descent_and_first_infeasible_stops
    (eng : Engine) (L U : ℤ) (hLU : L ≤ U) :
    (∀ i, i < (runFin eng L U).calls.length →
        ((runFin eng L U).calls.getD i noCall).makespan = U - (i : ℤ)) ∧
    (∀ i, i < (runFin eng L U).calls.length →
        callResult eng ((runFin eng L U).calls.getD i noCall) = .Infeasible →
        (runFin eng L U).calls.length = i + 1) := by
  obtain ⟨tail, h1, h2, h3, h4, h5, h6⟩ := searchLoop_spec eng (descRange U L) initState
  have hc : (runFin eng L U).calls = tail := by
    simpa [runFin, initState] using h1
  constructor
  · intro i hi
    rw [hc] at hi ⊢
    rw [h3 i hi]
    exact descRange_getD U L i (lt_of_lt_of_le hi h2)
  · intro i hi hres
    have hcf : callFeasible eng ((runFin eng L U).calls.getD i noCall) = false := by
      rw [callFeasible_eq, hres]
      rfl
    rw [hc] at hi hcf ⊢
    by_contra hne
    have hlt : i + 1 < tail.length := by omega
    have h5' := h5 i hlt
    rw [hcf] at h5'
    exact absurd h5' (by simp)

/-- Witness for C1 on a concrete run: with bounds `[3, 5]` and an engine
that answers `Infeasible` immediately, the single call tests makespan 5 and
the trace stops right there. -/
theorem claim1_witness :
    ((runFin engAllInf 3 5).calls.getD 0 noCall).makespan = 5 ∧
    (runFin engAllInf 3 5).calls.length = 1 := by
  have h := claim1_descent_and_first_infeasible_stops engAllInf 3 5 (by norm_num)
  have hlen : (runFin engAllInf 3 5).calls.length = 1 := by
    norm_num [runFin, searchLoop, descRange, initState, solve_rcpsp_with_makespan_bound,
      engAllInf, isSolution, time_to_use, TIME_PER_INSTANCE, List.range_succ]
  refine ⟨?_, ?_⟩
  · have := h.1 0 (by omega)
    simpa using this
  · refine h.2 0 (by omega) ?_
    norm_num [runFin, searchLoop, descRange, initState, solve_rcpsp_with_makespan_bound,
      engAllInf, isSolution, time_to_use, TIME_PER_INSTANCE, List.range_succ, callResult,
      noCall]

/-- C7: every oracle call the driver issues carries strictly positive
remaining budget, and whenever the pre-call check finds the remaining
budget non-positive the driver sets the timeout flag and stops iterating
without issuing a further oracle call (the state is returned unchanged
except for `timedOut`). -/
theorem claim7_budget_check_guards_calls (eng : Engine) (L U : ℤ) :
    (∀ i, i < (runFin eng L U).calls.length →
        0 < ((runFin eng L U).calls.getD i noCall).remaining) ∧
    (∀ (st : LoopState) (m : ℤ) (rest : List ℤ),
        TIME_PER_INSTANCE - st.elapsed ≤ 0 →
        searchLoop eng (m :: rest) st = { st with timedOut := true }) := by
  obtain ⟨tail, h1, h2, h3, h4, h5, h6⟩ := searchLoop_spec eng (descRange U L) initState
  have hc : (runFin eng L U).calls = tail := by
    simpa [runFin, initState] using h1
  refine ⟨?_, ?_⟩
  · intro i hi
    rw [hc] at hi ⊢
    exact h4 i hi
  · intro st m rest hto
    exact searchLoop_cons_timeout eng m rest st hto

/-- Witness for C7: the first call of a concrete run carries remaining
budget 900 > 0, and a loop entered with the budget already exhausted only
sets the timeout flag. -/
theorem claim7_witness :
    (0 < ((runFin engAllFeas 3 5).calls.getD 0 noCall).remaining) ∧
    searchLoop engAllFeas [4] ⟨none, 900, false, []⟩ = ⟨none, 900, true, []⟩ := by
  have h := claim7_budget_check_guards_calls engAllFeas 3 5
  refine ⟨h.1 0 ?_, ?_⟩
  · norm_num [runFin, searchLoop, descRange, initState, solve_rcpsp_with_makespan_bound,
      engAllFeas, isSolution, time_to_use, TIME_PER_INSTANCE, List.range_succ]
  · have h2 := h.2 ⟨none, 900, false, []⟩ 4 [] (by norm_num [TIME_PER_INSTANCE])
    simpa using h2

/-- C8: the time limit actually passed to the underlying decision procedure
is the maximum of 1 and the caller-supplied remaining budget; a call with
non-positive remaining budget is still attempted with a floor of 1 time
unit (the engine is invoked, with limit `max 1 r`) rather than skipped. -/
theorem claim8_time_limit_floor (eng : Engine) (m : ℤ) (r : ℚ) :
    time_to_use r = max 1 r ∧
    (r ≤ 0 → time_to_use r = 1) ∧
    solve_rcpsp_with_makespan_bound eng m r =
      (isSolution (eng m (max 1 r)).1, (eng m (max 1 r)).2) := by
  refine ⟨rfl, ?_, rfl⟩
  intro hr
  unfold time_to_use
  exact max_eq_left (by linarith)

/-- Witness for C8: a call arriving with remaining budget −5 is attempted
with a time limit of exactly 1. -/
theorem claim8_witness : time_to_use (-5) = 1 :=
  (claim8_time_limit_floor engAllFeas 0 (-5)).2.1 (by norm_num)

/-- With in-range bounds, the driver's result is the classification of the
final loop state. -/
theorem solve_eq_classify (eng : Engine) (fl : List ℤ) (L U : ℤ)
    (hb : readBounds fl = some (L, U)) :
    solve_rcpsp_linear_search eng fl = classify L U (runFin eng L U) := by
  simp only [solve_rcpsp_linear_search, hb]
  rfl

/-- With no usable bounds, the driver returns the early-exit tuple. -/
theorem solve_eq_of_no_bounds (eng : Engine) (fl : List ℤ)
    (hb : readBounds fl = none) :
    solve_rcpsp_linear_search eng fl = ⟨none, none, none, "infeasible", 0⟩ := by
  simp only [solve_rcpsp_linear_search, hb]

/-- Classification with no feasible value found: the `infeasible` row. -/
theorem classify_of_best_none (L U : ℤ) (fin : LoopState)
    (hb : fin.best = none) :
    classify L U fin = ⟨some L, some U, none, "infeasible", fin.elapsed⟩ := by
  unfold classify
  rw [hb]

/-- Classification yields `optimal` exactly when the best feasible value is
the lower bound, the elapsed time is within the budget and the timeout flag
is unset. -/
theorem classify_status_optimal_iff (L U : ℤ) (fin : LoopState) :
    (classify L U fin).status = "optimal" ↔
      (fin.best = some L ∧
        ¬(TIME_PER_INSTANCE < fin.elapsed ∨ fin.timedOut = true)) := by
  unfold classify
  cases hb : fin.best with
  | none => simp
  | some m =>
    by_cases hcond : TIME_PER_INSTANCE < fin.elapsed ∨ fin.timedOut = true
    · simp [hcond]
    · by_cases hm : m = L
      · simp [hcond, hm]
      · simp [hcond, hm]

/-- Classification with a found value under timeout or budget overrun is
`feasible`. -/
theorem classify_status_feasible_of_timeout (L U : ℤ) (fin : LoopState)
    (m : ℤ) (hb : fin.best = some m)
    (hcond : TIME_PER_INSTANCE < fin.elapsed ∨ fin.timedOut = true) :
    (classify L U fin).status = "feasible" := by
  unfold classify
  rw [hb]
  simp [hcond]

/-- C2: when the search's final best feasible makespan equals the lower
bound and the search did not time out — the timeout flag is unset and the
total solve time is within the budget, the code's notion of the search
having been completed in time — the status is `optimal`; in particular, for
an instance with `lower_bound = upper_bound` whose single oracle call
answers `Feasible` within the budget, the reported status is `optimal`. -/
theorem claim2_lower_bound_hit_is_optimal (eng : Engine) (fl : List ℤ) :
    (∀ L U, readBounds fl = some (L, U) →
        (runFin eng L U).best = some L →
        (runFin eng L U).timedOut = false →
        (runFin eng L U).elapsed ≤ TIME_PER_INSTANCE →
        (solve_rcpsp_linear_search eng fl).status = "optimal") ∧
    (∀ v c, readBounds fl = some (v, v) →
        eng v (time_to_use TIME_PER_INSTANCE) = (.Feasible, c) →
        c ≤ TIME_PER_INSTANCE →
        (solve_rcpsp_linear_search eng fl).status = "optimal") := by
  constructor
  · intro L U hb hbest hto hel
    rw [solve_eq_classify eng fl L U hb]
    rw [classify_status_optimal_iff]
    exact ⟨hbest, by simp [hto, not_lt.mpr hel]⟩
  · intro v c hb hfe hc
    rw [solve_eq_classify eng fl v v hb]
    have h0 : ¬ TIME_PER_INSTANCE - initState.elapsed ≤ 0 := by
      norm_num [initState, TIME_PER_INSTANCE]
    have hcall : solve_rcpsp_with_makespan_bound eng v
        (TIME_PER_INSTANCE - initState.elapsed) = (true, c) := by
      have hsub : TIME_PER_INSTANCE - initState.elapsed = TIME_PER_INSTANCE := by
        norm_num [initState]
      rw [hsub]
      unfold solve_rcpsp_with_makespan_bound
      rw [hfe]
      rfl
    have hrun : runFin eng v v =
        { best := some v, elapsed := initState.elapsed + c,
          timedOut := initState.timedOut,
          calls := initState.calls ++ [⟨v, TIME_PER_INSTANCE - initState.elapsed⟩] } := by
      unfold runFin
      rw [descRange_self]
      rw [searchLoop_cons_feasible eng v [] initState h0 (by rw [hcall])]
      rw [hcall]
      rfl
    rw [hrun, classify_status_optimal_iff]
    refine ⟨rfl, ?_⟩
    simp only [initState]
    push_neg
    refine ⟨by simpa using hc, by simp⟩

/-- Witness for C2: a run reaching the lower bound in time is `optimal`,
and a single-bound instance feasible within budget is `optimal`. -/
theorem claim2_witness :
    (solve_rcpsp_linear_search engAllFeas [2, 2, 3, 5]).status = "optimal" ∧
    (solve_rcpsp_linear_search engAllFeas [3, 1, 7]).status = "optimal" := by
  have h := claim2_lower_bound_hit_is_optimal engAllFeas [2, 2, 3, 5]
  have h' := claim2_lower_bound_hit_is_optimal engAllFeas [3, 1, 7]
  refine ⟨h.1 3 5 (by norm_num [readBounds]) ?_ ?_ ?_,
          h'.2 7 1 (by norm_num [readBounds]) rfl (by norm_num [TIME_PER_INSTANCE])⟩
  · norm_num [runFin, searchLoop, descRange, initState, solve_rcpsp_with_makespan_bound,
      engAllFeas, isSolution, time_to_use, TIME_PER_INSTANCE, List.range_succ]
  · norm_num [runFin, searchLoop, descRange, initState, solve_rcpsp_with_makespan_bound,
      engAllFeas, isSolution, time_to_use, TIME_PER_INSTANCE, List.range_succ]
  · norm_num [runFin, searchLoop, descRange, initState, solve_rcpsp_with_makespan_bound,
      engAllFeas, isSolution, time_to_use, TIME_PER_INSTANCE, List.range_succ]

/-- C9: a search classified `optimal` had its elapsed time within the
per-instance budget and the timeout flag unset; conversely whenever the
elapsed time exceeds the budget or the flag was set, a found makespan is
reported `feasible`, even if it equals the lower bound. -/
theorem claim9_optimal_implies_within_budget (eng : Engine) (fl : List ℤ)
    (L U : ℤ) (hb : readBounds fl = some (L, U)) :
    ((solve_rcpsp_linear_search eng fl).status = "optimal" →
        (runFin eng L U).elapsed ≤ TIME_PER_INSTANCE ∧
        (runFin eng L U).timedOut = false) ∧
    (∀ m, (runFin eng L U).best = some m →
        (TIME_PER_INSTANCE < (runFin eng L U).elapsed ∨
          (runFin eng L U).timedOut = true) →
        (solve_rcpsp_linear_search eng fl).status = "feasible") := by
  constructor
  · intro hopt
    rw [solve_eq_classify eng fl L U hb, classify_status_optimal_iff] at hopt
    push_neg at hopt
    exact ⟨hopt.2.1, by simpa using hopt.2.2⟩
  · intro m hbest hcond
    rw [solve_eq_classify eng fl L U hb]
    exact classify_status_feasible_of_timeout L U (runFin eng L U) m hbest hcond

/-- Witness for C9: the concrete optimal run stayed within budget with the
flag unset. -/
theorem claim9_witness :
    (runFin engAllFeas 3 5).elapsed ≤ TIME_PER_INSTANCE ∧
    (runFin engAllFeas 3 5).timedOut = false := by
  refine (claim9_optimal_implies_within_budget engAllFeas [2, 2, 3, 5] 3 5
    (by norm_num [readBounds])).1 ?_
  norm_num [solve_rcpsp_linear_search, readBounds, classify, runFin, searchLoop, descRange,
    initState, solve_rcpsp_with_makespan_bound, engAllFeas, isSolution, time_to_use,
    TIME_PER_INSTANCE, List.range_succ]

/-- C10: a first line with exactly one trailing bound field sets both the
lower and the upper bound to that single value — the instance is not
treated as missing bounds — and the resulting search issues exactly one
oracle call, testing exactly that candidate makespan. -/
theorem claim10_single_bound_field (eng : Engine) (a b v : ℤ) :
    readBounds [a, b, v] = some (v, v) ∧
    (runFin eng v v).calls.length = 1 ∧
    ((runFin eng v v).calls.getD 0 noCall).makespan = v ∧
    solve_rcpsp_linear_search eng [a, b, v] = classify v v (runFin eng v v) := by
  have hrb : readBounds [a, b, v] = some (v, v) := by
    norm_num [readBounds]
  have h0 : ¬ TIME_PER_INSTANCE - initState.elapsed ≤ 0 := by
    norm_num [initState, TIME_PER_INSTANCE]
  have hcalls : (runFin eng v v).calls =
      [⟨v, TIME_PER_INSTANCE - initState.elapsed⟩] := by
    unfold runFin
    rw [descRange_self]
    by_cases hf : (solve_rcpsp_with_makespan_bound eng v
        (TIME_PER_INSTANCE - initState.elapsed)).1 = true
    · rw [searchLoop_cons_feasible eng v [] initState h0 hf]
      rfl
    · rw [searchLoop_cons_break eng v [] initState h0 (by simpa using hf)]
      rfl
  refine ⟨hrb, ?_, ?_, solve_eq_classify eng [a, b, v] v v hrb⟩
  · rw [hcalls]
    rfl
  · rw [hcalls]
    rfl

/-- Counterexample to C3 as stated: with an engine that times out on the
first call, the run contains an oracle call whose decision is `TimedOut`,
yet the driver's timeout flag stays `false` (the claim says the driver sets
it to true), and, no feasible value having been found, the outcome is
classified `infeasible` (the claim says the outcome is never Infeasible). -/
theorem claim3_counterexample :
    callResult engTO ((runFin engTO 3 5).calls.getD 0 noCall) = .TimedOut ∧
    (runFin engTO 3 5).timedOut = false ∧
    (solve_rcpsp_linear_search engTO [2, 2, 3, 5]).status = "infeasible" := by
  refine ⟨?_, ?_, ?_⟩ <;>
    norm_num [solve_rcpsp_linear_search, readBounds, classify, runFin, searchLoop,
      descRange, initState, solve_rcpsp_with_makespan_bound, engTO, isSolution,
      time_to_use, TIME_PER_INSTANCE, List.range_succ, callResult, noCall]

/-- C3 (amended): an oracle-call timeout is invisible to the driver — the
wrapper collapses it to a non-feasible boolean — so on a call whose engine
decision is `TimedOut` the driver stops iterating (that call is the last of
the trace) but does not set the timeout flag, and when no feasible value
was found the outcome is classified `infeasible`. -/
theorem claim3_amended_oracle_timeout (eng : Engine) (L U : ℤ) (i : ℕ)
    (hi : i < (runFin eng L U).calls.length)
    (hres : callResult eng ((runFin eng L U).calls.getD i noCall) = .TimedOut) :
    (runFin eng L U).calls.length = i + 1 ∧
    (runFin eng L U).timedOut = false ∧
    ((runFin eng L U).best = none →
      (classify L U (runFin eng L U)).status = "infeasible") := by
  obtain ⟨tail, h1, h2, h3, h4, h5, h6⟩ := searchLoop_spec eng (descRange U L) initState
  have hc : (runFin eng L U).calls = tail := by
    simpa [runFin, initState] using h1
  have hcf : callFeasible eng ((runFin eng L U).calls.getD i noCall) = false := by
    rw [callFeasible_eq, hres]
    rfl
  have hlen : (runFin eng L U).calls.length = i + 1 := by
    rw [hc] at hi hcf ⊢
    by_contra hne
    have hlt : i + 1 < tail.length := by omega
    have h5' := h5 i hlt
    rw [hcf] at h5'
    exact absurd h5' (by simp)
  have hto : (runFin eng L U).timedOut = false := by
    rw [hc] at hi hcf
    have h6' := h6 ⟨i, hi, hcf⟩
    simpa [runFin, initState] using h6'
  refine ⟨hlen, hto, ?_⟩
  intro hbest
  rw [classify_of_best_none L U _ hbest]

/-- Witness for the amended C3, on the concrete timing-out engine. -/
theorem claim3_witness :
    (runFin engTO 3 5).calls.length = 1 ∧
    (classify 3 5 (runFin engTO 3 5)).status = "infeasible" := by
  have h := claim3_amended_oracle_timeout engTO 3 5 0
    (by norm_num [runFin, searchLoop, descRange, initState,
      solve_rcpsp_with_makespan_bound, engTO, isSolution, time_to_use,
      TIME_PER_INSTANCE, List.range_succ])
    (by norm_num [runFin, searchLoop, descRange, initState,
      solve_rcpsp_with_makespan_bound, engTO, isSolution, time_to_use,
      TIME_PER_INSTANCE, List.range_succ, callResult, noCall])
  refine ⟨h.1, h.2.2 ?_⟩
  norm_num [runFin, searchLoop, descRange, initState,
    solve_rcpsp_with_makespan_bound, engTO, isSolution, time_to_use,
    TIME_PER_INSTANCE, List.range_succ]

/-- Counterexample to C4 as stated: with the engine that times out on the
very first call and consumes the whole budget, the search completes no
determination at all (a single `TimedOut` call, no feasible value), yet the
outcome carries the same `infeasible` status that a completed infeasible
determination produces — not a distinct Indeterminate outcome. -/
theorem claim4_counterexample :
    (runFin engTO 4 6).best = none ∧
    (runFin engTO 4 6).elapsed = 900 ∧
    callResult engTO ((runFin engTO 4 6).calls.getD 0 noCall) = .TimedOut ∧
    (solve_rcpsp_linear_search engTO [2, 2, 4, 6]).status = "infeasible" ∧
    (solve_rcpsp_linear_search engAllInf [2, 2, 4, 6]).status = "infeasible" := by
  refine ⟨?_, ?_, ?_, ?_, ?_⟩ <;>
    norm_num [solve_rcpsp_linear_search, readBounds, classify, runFin, searchLoop,
      descRange, initState, solve_rcpsp_with_makespan_bound, engTO, engAllInf,
      isSolution, time_to_use, TIME_PER_INSTANCE, List.range_succ, callResult, noCall]

/-- C4 (amended): whenever a search over a usable bound range finds no
feasible makespan, the outcome is classified `infeasible`, regardless of
whether the loop completed an infeasible determination or the budget ran
out before any determination — the code produces no indeterminate
outcome. -/
theorem claim4_amended_no_feasible_is_infeasible (eng : Engine) (fl : List ℤ)
    (L U : ℤ) (hb : readBounds fl = some (L, U))
    (hbest : (runFin eng L U).best = none) :
    (solve_rcpsp_linear_search eng fl).status = "infeasible" ∧
    (solve_rcpsp_linear_search eng fl).makespan = none := by
  rw [solve_eq_classify eng fl L U hb, classify_of_best_none L U _ hbest]
  exact ⟨rfl, rfl⟩

/-- Witness for the amended C4, on a run whose first call is infeasible. -/
theorem claim4_witness :
    (solve_rcpsp_linear_search engAllInf [2, 2, 4, 7]).status = "infeasible" ∧
    (solve_rcpsp_linear_search engAllInf [2, 2, 4, 7]).makespan = none := by
  refine claim4_amended_no_feasible_is_infeasible engAllInf [2, 2, 4, 7] 4 7
    (by norm_num [readBounds]) ?_
  norm_num [runFin, searchLoop, descRange, initState,
    solve_rcpsp_with_makespan_bound, engAllInf, isSolution, time_to_use,
    TIME_PER_INSTANCE, List.range_succ]

/-- Counterexample to C5 as stated: a bound-less instance is reported with
the very status `infeasible` that a genuinely infeasible search produces,
not with a distinct Indeterminate outcome. -/
theorem claim5_counterexample :
    (solve_rcpsp_linear_search engAllFeas [6, 2]).status = "infeasible" ∧
    (solve_rcpsp_linear_search engAllFeas [6, 2]).status =
      (solve_rcpsp_linear_search engAllInf [2, 2, 5, 9]).status := by
  refine ⟨?_, ?_⟩ <;>
    norm_num [solve_rcpsp_linear_search, readBounds, classify, runFin, searchLoop,
      descRange, initState, solve_rcpsp_with_makespan_bound, engAllFeas, engAllInf,
      isSolution, time_to_use, TIME_PER_INSTANCE, List.range_succ]

/-- C5 (amended): with no usable bound range the driver returns immediately
with the fixed all-`None` tuple — independent of the oracle, so no oracle
call is issued and the row shows `N/A` bounds — but its status is the
`infeasible` label rather than a distinct indeterminate status. -/
theorem claim5_amended_no_bounds_early_exit (eng eng' : Engine) (fl : List ℤ)
    (hb : readBounds fl = none) :
    solve_rcpsp_linear_search eng fl = ⟨none, none, none, "infeasible", 0⟩ ∧
    solve_rcpsp_linear_search eng fl = solve_rcpsp_linear_search eng' fl := by
  refine ⟨solve_eq_of_no_bounds eng fl hb, ?_⟩
  rw [solve_eq_of_no_bounds eng fl hb, solve_eq_of_no_bounds eng' fl hb]

/-- Witness for the amended C5: a two-token first line triggers the
immediate exit with the all-`None` infeasible tuple. -/
theorem claim5_witness :
    solve_rcpsp_linear_search engAllFeas [6, 2] =
      ⟨none, none, none, "infeasible", 0⟩ :=
  (claim5_amended_no_bounds_early_exit engAllFeas engTO [6, 2]
    (by norm_num [readBounds])).1

/-- Row `i` of the batch output is the processing of input file `i`. -/
theorem mainRows_getD (run : String → Except Unit SolveResult)
    (files : List String) (i : ℕ) (hi : i < files.length) :
    (mainRows run files).getD i noRow = processInstance run (files.getD i "") := by
  unfold mainRows
  rw [List.getD_eq_getElem _ _ (by simpa using hi), List.getElem_map,
    List.getD_eq_getElem _ _ hi]

/-- Counterexample to C6 as stated: the row written for the failing
instance has status `infeasible`, not `error` (the code reuses the
infeasible label in its `except` handler), though it does carry zero
timing and the batch still yields all three rows. -/
theorem claim6_counterexample :
    (mainRows runOneBad ["j30_1.data", "j30_2.data", "j30_3.data"]).length = 3 ∧
    ((mainRows runOneBad ["j30_1.data", "j30_2.data", "j30_3.data"]).getD 1 noRow).status
      = "infeasible" ∧
    ¬ ((mainRows runOneBad ["j30_1.data", "j30_2.data", "j30_3.data"]).getD 1 noRow).status
      = "error" ∧
    ((mainRows runOneBad ["j30_1.data", "j30_2.data", "j30_3.data"]).getD 1 noRow).solve_time
      = 0 := by
  exact ⟨rfl, rfl, by decide, rfl⟩

/-- C6 (amended): an exception on one instance is caught at the batch
boundary and converted into a zero-timing row whose status is the reused
`infeasible` label; the batch still emits one row per instance, and
injecting the failure on one instance leaves every other row unchanged. -/
theorem claim6_amended_fault_isolation
    (run run' : String → Except Unit SolveResult)
    (files : List String) (bad : String)
    (hbad : run' bad = .error ())
    (hagree : ∀ n, n ≠ bad → run' n = run n) :
    (mainRows run' files).length = files.length ∧
    (∀ i, i < files.length → files.getD i "" ≠ bad →
        (mainRows run' files).getD i noRow = (mainRows run files).getD i noRow) ∧
    (∀ i, i < files.length → files.getD i "" = bad →
        (mainRows run' files).getD i noRow = errorRow bad) := by
  refine ⟨by simp [mainRows], ?_, ?_⟩
  · intro i hi hne
    rw [mainRows_getD run' files i hi, mainRows_getD run files i hi]
    unfold processInstance
    rw [hagree _ hne]
  · intro i hi heq
    rw [mainRows_getD run' files i hi, heq]
    unfold processInstance
    rw [hbad]

/-- Witness for the amended C6 on a concrete three-instance batch with a
failure injected on the middle instance. -/
theorem claim6_witness :
    (mainRows runOneBad ["j30_1.data", "j30_2.data", "j30_3.data"]).length = 3 ∧
    (mainRows runOneBad ["j30_1.data", "j30_2.data", "j30_3.data"]).getD 1 noRow
      = errorRow "j30_2.data" ∧
    (mainRows runOneBad ["j30_1.data", "j30_2.data", "j30_3.data"]).getD 0 noRow
      = (mainRows runAllOk ["j30_1.data", "j30_2.data", "j30_3.data"]).getD 0 noRow := by
  have h := claim6_amended_fault_isolation runAllOk runOneBad
      ["j30_1.data", "j30_2.data", "j30_3.data"] "j30_2.data"
      (by simp [runOneBad])
      (fun n hn => by simp [runOneBad, hn])
  exact ⟨h.1, h.2.2 1 (by norm_num) rfl, h.2.1 0 (by norm_num) (by decide)⟩

end RcpspPack
